import Mathlib

/-!
Verification development for the gh-stale-repos CLI tool.

The tool scans a GitHub organization for repositories that are both stale
(no push within a configurable window) and low-activity (fewer commits on the
default branch than a configurable threshold), and reports them as a table,
JSON, or CSV.

This file gives a shallow embedding of the pagination-and-filtering pipeline
of the main program variant (the second embedded document of
src/gh-stale-repos.ts): the cursor-based fetch loop, the early-termination
rule on the ascending push-date order, the ignore-list exclusion, the
result-shaping logic, and the JSON output.  A small trace model of the
program prelude of the first variant (and src/unnamed/part_000) covers the
token-logging behaviour.

Modelling conventions:
  - a JavaScript Date is modelled by `DTime`: the instant on the time line
    (`t`, milliseconds since the epoch, used by the isBefore and isAfter
    comparisons of date-fns) together with its calendar projection (`ymd`,
    used by format with pattern yyyy-MM-dd);
  - nullable or optional-chained values become `Option`; the JavaScript
    truthiness test of the or-else operator on strings (null, undefined and
    the empty string are falsy) is `jsTruthy`;
  - the remote GraphQL source is a function from the request cursor to a
    transport response: either a page of repository nodes or an error body;
  - the while loop of fetchStaleRepos is run with explicit fuel; running out
    of fuel returns `none`, a normal return is `some (Except.ok results)`,
    and the fatal-exit path on a transport error is `some (Except.error body)`.
-/

namespace GhStaleRepos

/-- Calendar projection of a date: year, month (1 to 12), day (1 to 31). -/
structure YMD where
  y : Nat
  m : Nat
  d : Nat
deriving DecidableEq

/-- A JavaScript Date value: the instant `t` (milliseconds since the epoch,
the quantity compared by isBefore and isAfter) and its calendar fields `ymd`
(the quantity printed by format with pattern yyyy-MM-dd). -/
structure DTime where
  t : Int
  ymd : YMD
deriving DecidableEq

/-- The decimal digit character for `n` (callers pass a value below 10). -/
def digitChar (n : Nat) : Char :=
  match n with
  | 0 => '0'
  | 1 => '1'
  | 2 => '2'
  | 3 => '3'
  | 4 => '4'
  | 5 => '5'
  | 6 => '6'
  | 7 => '7'
  | 8 => '8'
  | _ => '9'

/-- Two-digit zero-padded decimal rendering, as the MM and dd tokens of the
date-fns format pattern produce for calendar months and days. -/
def pad2 (n : Nat) : String :=
  if n < 100 then String.mk [digitChar (n / 10), digitChar (n % 10)]
  else toString n

/-- Four-digit zero-padded decimal rendering, as the yyyy token of the
date-fns format pattern produces for years up to 9999. -/
def pad4 (n : Nat) : String :=
  if n < 10000 then
    String.mk [digitChar (n / 1000 % 10), digitChar (n / 100 % 10),
               digitChar (n / 10 % 10), digitChar (n % 10)]
  else toString n

/-- The date-fns call format(date, yyyy-MM-dd) used for every date field of
a Result Record. -/
def formatYMD (x : YMD) : String :=
  pad4 x.y ++ "-" ++ pad2 x.m ++ "-" ++ pad2 x.d

/-- Calendar fields in the range every real date satisfies. -/
def validYMD (x : YMD) : Bool :=
  decide (1 ≤ x.y) && decide (x.y ≤ 9999) && decide (1 ≤ x.m) &&
  decide (x.m ≤ 12) && decide (1 ≤ x.d) && decide (x.d ≤ 31)

/-- Recogniser for strings of the shape yyyy-MM-dd: ten characters, digits
everywhere except hyphens at positions 4 and 7. -/
def isYMDShape (s : String) : Bool :=
  match s.data with
  | [a, b, c, d, h1, e, f, h2, g, i] =>
    a.isDigit && b.isDigit && c.isDigit && d.isDigit && (h1 == '-') &&
    e.isDigit && f.isDigit && (h2 == '-') && g.isDigit && i.isDigit
  | _ => false

/-- Author metadata of a commit node, with the nested user login collapsed
into an optional field (author.user is nullable, its login is not). -/
structure CommitAuthor where
  name : Option String
  email : Option String
  userLogin : Option String
deriving DecidableEq

/-- One node of the commit history returned by the query (history is
requested with first 1, so at most one node arrives). -/
structure CommitInfo where
  committedDate : Option DTime
  author : Option CommitAuthor
deriving DecidableEq

/-- The history object of the default branch: total commit count plus the
requested first node. -/
structure History where
  totalCount : Nat
  nodes : List CommitInfo
deriving DecidableEq

/-- A repository candidate as one node of a page response.  The optional
chain defaultBranchRef.target.history of the source is collapsed into the
single optional field `history`. -/
structure Repo where
  name : String
  pushedAt : DTime
  diskUsage : Option Int
  history : Option History
deriving DecidableEq

/-- One page response of the paged repositories query. -/
structure Page where
  nodes : List Repo
  endCursor : Option String
  hasNextPage : Bool
deriving DecidableEq

/-- A Result Record, in the field order of the object literal pushed onto
staleRepos in the source. -/
structure StaleRepo where
  name : String
  pushedAt : String
  commits : Nat
  size : String
  lastCommitDate : String
  lastCommitAuthor : String
  lastCommitAuthorEmail : String
deriving DecidableEq

/-- The scan parameters fixed for one run: the cutoff instant
(subDays(new Date(), staleDays)), the commit threshold, and the ignore list
read before scanning. -/
structure ScanEnv where
  cutoff : Int
  commitThreshold : Nat
  ignoreList : List String
deriving DecidableEq

/-- The cutoff instant now minus staleDays, as subDays computes it on the
millisecond time line. -/
def subDaysMs (now : Int) (days : Nat) : Int :=
  now - days * 86400000

/-- JavaScript truthiness filter for an optional-chained string: null,
undefined and the empty string are falsy. -/
def jsTruthy (s : Option String) : Option String :=
  s.bind (fun x => if x = "" then none else some x)

/-- The expression repo.defaultBranchRef?.target?.history?.nodes?.[0]. -/
def lastCommitInfo (r : Repo) : Option CommitInfo :=
  r.history.bind (fun h => h.nodes.head?)

/-- The value lastCommitInfo?.committedDate || pushedAt: the committed date
of the most recent commit when present, else the push date. -/
def lastCommitDT (r : Repo) : DTime :=
  (((lastCommitInfo r).bind (fun ci => ci.committedDate))).getD r.pushedAt

/-- The author display name: user login, else author name, else unknown. -/
def authorOf (r : Repo) : String :=
  ((jsTruthy (((lastCommitInfo r).bind (fun ci => ci.author)).bind
      (fun a => a.userLogin))).or
    (jsTruthy (((lastCommitInfo r).bind (fun ci => ci.author)).bind
      (fun a => a.name)))).getD ("unknown")

/-- The author email: lastCommitInfo?.author?.email || unknown. -/
def authorEmailOf (r : Repo) : String :=
  (jsTruthy (((lastCommitInfo r).bind (fun ci => ci.author)).bind
    (fun a => a.email))).getD ("unknown")

/-- The effective commit count: history?.totalCount || 0. -/
def totalCommitsOf (r : Repo) : Nat :=
  (r.history.map (fun h => h.totalCount)).getD 0

/-- The template literal for the size field: diskUsage interpolated and
suffixed with kB; a null diskUsage interpolates as the string null. -/
def sizeStr (r : Repo) : String :=
  match r.diskUsage with
  | some n => toString n ++ " kB"
  | none => "null kB"

/-- The Result Record built from a candidate, as the object literal pushed
onto staleRepos (lines 297 to 308 of the source). -/
def buildRecord (r : Repo) : StaleRepo :=
  { name := r.name
    pushedAt := formatYMD r.pushedAt.ymd
    commits := totalCommitsOf r
    size := sizeStr r
    lastCommitDate := formatYMD (lastCommitDT r).ymd
    lastCommitAuthor := authorOf r
    lastCommitAuthorEmail := authorEmailOf r }

/-- The for loop over the nodes of one page: returns the Result Records
collected from this page, in order, together with the early-stop flag (true
exactly when the break on isAfter(pushedAt, cutoffDate) fired, which also
set hasNextPage to false). -/
def processRepos (env : ScanEnv) : List Repo → List StaleRepo × Bool
  | [] => ([], false)
  | r :: rest =>
    if env.ignoreList.contains r.name then
      processRepos env rest
    else if env.cutoff < r.pushedAt.t then
      ([], true)
    else
      let res := processRepos env rest
      if r.pushedAt.t < env.cutoff ∧ totalCommitsOf r < env.commitThreshold then
        (buildRecord r :: res.1, res.2)
      else
        res

/-- The while loop of fetchStaleRepos, with explicit fuel.  Each iteration
requests the page at the current cursor from the remote source.  A
non-success transport response is the fatal-exit path (Except.error body,
discarding everything accumulated).  Otherwise the page nodes are scanned;
the early-stop flag or a false hasNextPage returns the accumulated records,
else the loop continues at the returned end cursor. -/
def scanFuel (env : ScanEnv) (server : Option String → Except String Page) :
    Nat → Option String → List StaleRepo → Option (Except String (List StaleRepo))
  | 0, _, _ => none
  | fuel + 1, cursor, acc =>
    match server cursor with
    | .error body => some (.error body)
    | .ok page =>
      let res := processRepos env page.nodes
      let acc2 := acc ++ res.1
      if res.2 then some (.ok acc2)
      else if page.hasNextPage then scanFuel env server fuel page.endCursor acc2
      else some (.ok acc2)

/-- The whole fetchStaleRepos call: the loop starts with a null cursor and
an empty accumulator. -/
def fetchStaleRepos (env : ScanEnv) (server : Option String → Except String Page)
    (fuel : Nat) : Option (Except String (List StaleRepo)) :=
  scanFuel env server fuel none []

/-- Process exit code of a completed run: 1 on the fatal transport-error
path, 0 on a normal return (both the zero-result and the rendering path
exit 0). -/
def exitCodeOf (r : Except String (List StaleRepo)) : Nat :=
  match r with
  | .error _ => 1
  | .ok _ => 0

/-- The results a completed run emits: none at all on the fatal path. -/
def emittedResults (r : Except String (List StaleRepo)) :
    Option (List StaleRepo) :=
  match r with
  | .error _ => none
  | .ok rs => some rs

/-- A JSON value, the level of structure JSON.stringify and JSON.parse agree
on (whitespace of the pretty-printing aside). -/
inductive JVal where
  | str (s : String)
  | num (n : Nat)
  | arr (elems : List JVal)
  | obj (fields : List (String × JVal))

/-- The JSON object JSON.stringify produces for one Result Record: one
member per field, in the insertion order of the object literal. -/
def recordToJson (r : StaleRepo) : JVal :=
  JVal.obj [("name", JVal.str r.name),
            ("pushedAt", JVal.str r.pushedAt),
            ("commits", JVal.num r.commits),
            ("size", JVal.str r.size),
            ("lastCommitDate", JVal.str r.lastCommitDate),
            ("lastCommitAuthor", JVal.str r.lastCommitAuthor),
            ("lastCommitAuthorEmail", JVal.str r.lastCommitAuthorEmail)]

/-- The JSON output of the json branch: the array of the record objects. -/
def jsonOutput (rs : List StaleRepo) : JVal :=
  JVal.arr (rs.map recordToJson)

/-- The member names of a JSON object (empty for non-objects). -/
def fieldNamesOf (v : JVal) : List String :=
  match v with
  | .obj fs => fs.map (fun p => p.1)
  | _ => []

/-- Member lookup in a JSON object field list. -/
def getField (fs : List (String × JVal)) (k : String) : Option JVal :=
  (fs.find? (fun p => p.1 == k)).map (fun p => p.2)

/-- String payload of a JSON value, when it is a string. -/
def asStr (v : JVal) : Option String :=
  match v with
  | .str s => some s
  | _ => none

/-- Numeric payload of a JSON value, when it is a number. -/
def asNum (v : JVal) : Option Nat :=
  match v with
  | .num n => some n
  | _ => none

/-- Parsing one Result Record back out of its JSON object. -/
def parseRecord (v : JVal) : Option StaleRepo :=
  match v with
  | .obj fs => do
    let name ← (getField fs ("name")).bind asStr
    let pushedAt ← (getField fs ("pushedAt")).bind asStr
    let commits ← (getField fs ("commits")).bind asNum
    let size ← (getField fs ("size")).bind asStr
    let lastCommitDate ← (getField fs ("lastCommitDate")).bind asStr
    let lastCommitAuthor ← (getField fs ("lastCommitAuthor")).bind asStr
    let lastCommitAuthorEmail ← (getField fs ("lastCommitAuthorEmail")).bind asStr
    pure { name := name, pushedAt := pushedAt, commits := commits,
           size := size, lastCommitDate := lastCommitDate,
           lastCommitAuthor := lastCommitAuthor,
           lastCommitAuthorEmail := lastCommitAuthorEmail }
  | _ => none

/-- Parsing a list of record objects, failing on the first ill-formed one. -/
def parseResultList : List JVal → Option (List StaleRepo)
  | [] => some []
  | v :: vs => do
    let r ← parseRecord v
    let rest ← parseResultList vs
    pure (r :: rest)

/-- Parsing the JSON output back into the sequence of Result Records. -/
def parseResults (v : JVal) : Option (List StaleRepo) :=
  match v with
  | .arr es => parseResultList es
  | _ => none

/-- An observable event of the program prelude: a line on standard output,
a line on standard error, or a page request to the remote source. -/
inductive Ev where
  | stdout (s : String)
  | stderr (s : String)
  | request (cursor : Option String)
deriving DecidableEq

/-- The error message of the missing-token configuration check. -/
def tokenRequiredMsg : String :=
  "❌ GitHub token is required. Pass with --token or set GH_SR_TOKEN env var."

/-- The scanning banner printed before the fetch loop starts. -/
def scanningMsg (org : String) (staleDays commitThreshold : Nat) : String :=
  "🔍 Scanning \"" ++ org ++ "\" for repos not updated in " ++
  toString staleDays ++ " days with < " ++ toString commitThreshold ++
  " commits...\n"

/-- Trace of the observable events of the first program variant of
src/gh-stale-repos.ts (and of src/unnamed/part_000, whose prelude is the
same) from startup to the first page request: the token check (null,
undefined and the empty string are falsy), then console.log(token), the
banner, and the first fetch with a null cursor. -/
def mainEventsToFirstRequest : Option String → String → Nat → Nat → List Ev
  | none, _, _, _ => [Ev.stderr tokenRequiredMsg]
  | some t, org, staleDays, commitThreshold =>
    if t = "" then [Ev.stderr tokenRequiredMsg]
    else [Ev.stdout t, Ev.stdout (scanningMsg org staleDays commitThreshold),
          Ev.request none]

/-! Concrete inputs, used by the witnesses and counterexamples below. -/

/-- Example scan parameters: cutoff instant 1000, threshold 20, no ignores. -/
def envEx : ScanEnv :=
  { cutoff := 1000, commitThreshold := 20, ignoreList := [] }

/-- Example scan parameters with one ignored name. -/
def envIgn : ScanEnv :=
  { cutoff := 1000, commitThreshold := 20, ignoreList := ["ghost"] }

/-- A candidate pushed exactly at the cutoff instant, with no history. -/
def repoEq : Repo :=
  { name := "alpha", pushedAt := { t := 1000, ymd := { y := 2024, m := 1, d := 1 } },
    diskUsage := none, history := none }

/-- A stale low-activity candidate with full commit metadata. -/
def repoStale : Repo :=
  { name := "beta", pushedAt := { t := 500, ymd := { y := 2023, m := 6, d := 1 } },
    diskUsage := some 12,
    history := some
      { totalCount := 3,
        nodes := [{ committedDate := some { t := 400, ymd := { y := 2023, m := 5, d := 30 } },
                    author := some { name := some ("Bob"), email := some ("bob@example.com"),
                                     userLogin := some ("bob") } }] } }

/-- A stale low-activity candidate with no disk usage and no history. -/
def repoND : Repo :=
  { name := "gamma", pushedAt := { t := 500, ymd := { y := 2023, m := 6, d := 1 } },
    diskUsage := none, history := none }

/-- A fresh candidate (pushed well after the cutoff) named on the ignore
list of envIgn. -/
def repoGhost : Repo :=
  { name := "ghost", pushedAt := { t := 5000, ymd := { y := 2025, m := 3, d := 9 } },
    diskUsage := some 7, history := none }

/-- A single page holding only the at-cutoff candidate, with more pages
advertised. -/
def pageEq : Page :=
  { nodes := [repoEq], endCursor := some ("cur1"), hasNextPage := true }

/-- A remote source whose first page is pageEq and whose second request
fails at the transport level. -/
def serverStop (c : Option String) : Except String Page :=
  match c with
  | none => .ok pageEq
  | some _ => .error ("boom")

/-- A remote source returning one terminal page: the at-cutoff candidate
followed by a stale low-activity candidate. -/
def serverInc (c : Option String) : Except String Page :=
  match c with
  | none => .ok { nodes := [repoEq, repoStale], endCursor := none, hasNextPage := false }
  | some _ => .error ("unreachable")

/-- A remote source returning one terminal page holding repoND. -/
def serverND (c : Option String) : Except String Page :=
  match c with
  | none => .ok { nodes := [repoND], endCursor := none, hasNextPage := false }
  | some _ => .error ("unreachable")

/-- A remote source that fails every request. -/
def serverErr (_c : Option String) : Except String Page :=
  .error ("bad credentials")

/-- A remote source returning an empty terminal page for every request. -/
def serverEmpty (_c : Option String) : Except String Page :=
  .ok { nodes := [], endCursor := none, hasNextPage := false }

/-- A candidate pushed strictly after the cutoff instant. -/
def repoFresh : Repo :=
  { name := "delta", pushedAt := { t := 2000, ymd := { y := 2025, m := 1, d := 15 } },
    diskUsage := none, history := none }

/-- A page where a stale candidate precedes a strictly-after-cutoff one. -/
def pageMixed : Page :=
  { nodes := [repoStale, repoFresh, repoEq], endCursor := some ("cur9"),
    hasNextPage := true }

/-- A remote source whose first page is pageMixed and whose second request
would fail, so a second request is observable in the outcome. -/
def serverMixed (c : Option String) : Except String Page :=
  match c with
  | none => .ok pageMixed
  | some _ => .error ("second request issued")

/-! Helper lemmas. -/

/-- The digit map always yields a decimal digit character. -/
theorem digitChar_isDigit (n : Nat) : (digitChar n).isDigit = true := by
  unfold digitChar
  split <;> rfl

/-- Character content of the two-digit padding in its padded range. -/
theorem pad2_data (n : Nat) (h : n < 100) :
    (pad2 n).data = [digitChar (n / 10), digitChar (n % 10)] := by
  simp [pad2, h]

/-- Character content of the four-digit padding in its padded range. -/
theorem pad4_data (n : Nat) (h : n < 10000) :
    (pad4 n).data = [digitChar (n / 1000 % 10), digitChar (n / 100 % 10),
                     digitChar (n / 10 % 10), digitChar (n % 10)] := by
  simp [pad4, h]

/-- On every valid calendar date, the format call yields a string of the
shape yyyy-MM-dd. -/
theorem formatYMD_shape (x : YMD) (h : validYMD x = true) :
    isYMDShape (formatYMD x) = true := by
  have hb : 1 ≤ x.y ∧ x.y ≤ 9999 ∧ 1 ≤ x.m ∧ x.m ≤ 12 ∧ 1 ≤ x.d ∧ x.d ≤ 31 := by
    simpa [validYMD, and_assoc] using h
  have hy : x.y < 10000 := by omega
  have hm : x.m < 100 := by omega
  have hd : x.d < 100 := by omega
  have hdata : (formatYMD x).data =
      [digitChar (x.y / 1000 % 10), digitChar (x.y / 100 % 10),
       digitChar (x.y / 10 % 10), digitChar (x.y % 10), '-',
       digitChar (x.m / 10), digitChar (x.m % 10), '-',
       digitChar (x.d / 10), digitChar (x.d % 10)] := by
    simp [formatYMD, String.data_append, pad4_data _ hy, pad2_data _ hm,
          pad2_data _ hd]
  simp [isYMDShape, hdata, digitChar_isDigit]

/-- Unfolding the page scan at an ignored head. -/
theorem processRepos_cons_ignored (env : ScanEnv) (r : Repo)
    (rest : List Repo) (h : r.name ∈ env.ignoreList) :
    processRepos env (r :: rest) = processRepos env rest := by
  simp [processRepos, h]

/-- Unfolding the page scan at a non-ignored head pushed strictly after the
cutoff: the break fires. -/
theorem processRepos_cons_after (env : ScanEnv) (r : Repo)
    (rest : List Repo) (h1 : r.name ∉ env.ignoreList)
    (h2 : env.cutoff < r.pushedAt.t) :
    processRepos env (r :: rest) = ([], true) := by
  simp [processRepos, h1, h2]

/-- Unfolding the page scan at a head that passes all three checks. -/
theorem processRepos_cons_keep (env : ScanEnv) (r : Repo)
    (rest : List Repo) (h1 : r.name ∉ env.ignoreList)
    (h2 : ¬ env.cutoff < r.pushedAt.t)
    (h3 : r.pushedAt.t < env.cutoff ∧ totalCommitsOf r < env.commitThreshold) :
    processRepos env (r :: rest) =
      (buildRecord r :: (processRepos env rest).1, (processRepos env rest).2) := by
  simp [processRepos, h1, h2, h3]

/-- Unfolding the page scan at a non-ignored head that is neither strictly
after the cutoff nor both stale and low-activity: it is dropped. -/
theorem processRepos_cons_drop (env : ScanEnv) (r : Repo)
    (rest : List Repo) (h1 : r.name ∉ env.ignoreList)
    (h2 : ¬ env.cutoff < r.pushedAt.t)
    (h3 : ¬ (r.pushedAt.t < env.cutoff ∧
      totalCommitsOf r < env.commitThreshold)) :
    processRepos env (r :: rest) = processRepos env rest := by
  simp [processRepos, h1, h2, h3]

/-- Every record collected from one page comes from a node of that page
that passed all three checks: not ignored, strictly stale, low activity. -/
theorem processRepos_mem (env : ScanEnv) :
    ∀ (nodes : List Repo) (rec : StaleRepo), rec ∈ (processRepos env nodes).1 →
      ∃ r ∈ nodes, rec = buildRecord r ∧ r.pushedAt.t < env.cutoff ∧
        totalCommitsOf r < env.commitThreshold ∧
        env.ignoreList.contains r.name = false := by
  intro nodes
  induction nodes with
  | nil => intro rec h; simp [processRepos] at h
  | cons r rest ih =>
    intro rec h
    by_cases hig : r.name ∈ env.ignoreList
    · rw [processRepos_cons_ignored env r rest hig] at h
      obtain ⟨r2, hmem, hrest⟩ := ih rec h
      exact ⟨r2, List.mem_cons_of_mem _ hmem, hrest⟩
    · by_cases hafter : env.cutoff < r.pushedAt.t
      · rw [processRepos_cons_after env r rest hig hafter] at h
        simp at h
      · by_cases hcond : r.pushedAt.t < env.cutoff ∧
            totalCommitsOf r < env.commitThreshold
        · rw [processRepos_cons_keep env r rest hig hafter hcond] at h
          rcases List.mem_cons.mp h with he | hm
          · exact ⟨r, List.mem_cons_self r rest, he, hcond.1, hcond.2,
              by simpa using hig⟩
          · obtain ⟨r2, hmem, hrest⟩ := ih rec hm
            exact ⟨r2, List.mem_cons_of_mem _ hmem, hrest⟩
        · rw [processRepos_cons_drop env r rest hig hafter hcond] at h
          obtain ⟨r2, hmem, hrest⟩ := ih rec h
          exact ⟨r2, List.mem_cons_of_mem _ hmem, hrest⟩

/-- Every record a completed loop returns was either already accumulated or
comes from a candidate that passed all three checks. -/
theorem scanFuel_mem (env : ScanEnv) (server : Option String → Except String Page) :
    ∀ (fuel : Nat) (cursor : Option String) (acc rs : List StaleRepo),
      scanFuel env server fuel cursor acc = some (.ok rs) →
      ∀ rec ∈ rs, rec ∈ acc ∨
        ∃ r, rec = buildRecord r ∧ r.pushedAt.t < env.cutoff ∧
          totalCommitsOf r < env.commitThreshold ∧
          env.ignoreList.contains r.name = false := by
  intro fuel
  induction fuel with
  | zero => intro cursor acc rs h; simp [scanFuel] at h
  | succ n ih =>
    intro cursor acc rs h rec hrec
    rw [scanFuel] at h
    cases hs : server cursor with
    | error body => rw [hs] at h; simp at h
    | ok page =>
      rw [hs] at h
      dsimp only at h
      by_cases hstop : (processRepos env page.nodes).2 = true
      · rw [if_pos hstop] at h
        have hrs : rs = acc ++ (processRepos env page.nodes).1 := by
          simpa using h.symm
        subst hrs
        rcases List.mem_append.mp hrec with hina | hinp
        · exact Or.inl hina
        · obtain ⟨r, _, hrest⟩ := processRepos_mem env page.nodes rec hinp
          exact Or.inr ⟨r, hrest⟩
      · rw [if_neg hstop] at h
        by_cases hnext : page.hasNextPage = true
        · rw [if_pos hnext] at h
          have h2 := ih page.endCursor (acc ++ (processRepos env page.nodes).1)
            rs h rec hrec
          rcases h2 with hin2 | hp
          · rcases List.mem_append.mp hin2 with hina | hinp
            · exact Or.inl hina
            · obtain ⟨r, _, hrest⟩ := processRepos_mem env page.nodes rec hinp
              exact Or.inr ⟨r, hrest⟩
          · exact Or.inr hp
        · rw [if_neg hnext] at h
          have hrs : rs = acc ++ (processRepos env page.nodes).1 := by
            simpa using h.symm
          subst hrs
          rcases List.mem_append.mp hrec with hina | hinp
          · exact Or.inl hina
          · obtain ⟨r, _, hrest⟩ := processRepos_mem env page.nodes rec hinp
            exact Or.inr ⟨r, hrest⟩

/-- Scanning a page whose prefix never fires the break (each prefix node is
ignored or pushed at or before the cutoff) and then meets a non-ignored node
pushed strictly after the cutoff collects exactly the prefix records and
raises the early-stop flag; nothing after that node is looked at. -/
theorem processRepos_stop_of (env : ScanEnv) :
    ∀ (pre : List Repo) (a : Repo) (post : List Repo),
      (∀ r ∈ pre, env.ignoreList.contains r.name = true ∨
        r.pushedAt.t ≤ env.cutoff) →
      env.ignoreList.contains a.name = false →
      env.cutoff < a.pushedAt.t →
      processRepos env (pre ++ a :: post) = ((processRepos env pre).1, true) := by
  intro pre
  induction pre with
  | nil =>
    intro a post _ hna hafter
    have hna2 : a.name ∉ env.ignoreList := by simpa using hna
    rw [List.nil_append, processRepos_cons_after env a post hna2 hafter]
    rfl
  | cons r pre ih =>
    intro a post hpre hna hafter
    have hr := hpre r (List.mem_cons_self r pre)
    have htail : ∀ q ∈ pre, env.ignoreList.contains q.name = true ∨
        q.pushedAt.t ≤ env.cutoff :=
      fun q hq => hpre q (List.mem_cons_of_mem r hq)
    have ih2 := ih a post htail hna hafter
    by_cases hig : r.name ∈ env.ignoreList
    · rw [List.cons_append, processRepos_cons_ignored env r _ hig, ih2,
         processRepos_cons_ignored env r pre hig]
    · have hle : r.pushedAt.t ≤ env.cutoff := by
        rcases hr with h1 | h2
        · exact absurd (by simpa using h1) hig
        · exact h2
      have hnafter : ¬ env.cutoff < r.pushedAt.t := not_lt.mpr hle
      by_cases hcond : r.pushedAt.t < env.cutoff ∧
          totalCommitsOf r < env.commitThreshold
      · rw [List.cons_append, processRepos_cons_keep env r _ hig hnafter hcond,
           ih2, processRepos_cons_keep env r pre hig hnafter hcond]
      · rw [List.cons_append, processRepos_cons_drop env r _ hig hnafter hcond,
           ih2, processRepos_cons_drop env r pre hig hnafter hcond]

/-- Record round trip at the level of one JSON object. -/
theorem parseRecord_recordToJson (r : StaleRepo) :
    parseRecord (recordToJson r) = some r := rfl

/-! Claim theorems. -/

/-- Claim C1: every Result Record an ok run emits has its commits field
strictly below the threshold, and comes from a source candidate whose push
instant is strictly before the cutoff now minus staleDays, whose effective
commit count is strictly below the threshold, and whose name the Ignore Set
does not contain. -/
theorem fetchStaleRepos_result_invariants (env : ScanEnv)
    (server : Option String → Except String Page) (fuel : Nat)
    (now : Int) (staleDays : Nat) (rs : List StaleRepo)
    (hcut : env.cutoff = subDaysMs now staleDays)
    (hrun : fetchStaleRepos env server fuel = some (.ok rs)) :
    ∀ rec ∈ rs, rec.commits < env.commitThreshold ∧
      ∃ r, rec = buildRecord r ∧ r.pushedAt.t < subDaysMs now staleDays ∧
        totalCommitsOf r < env.commitThreshold ∧
        env.ignoreList.contains r.name = false := by
  intro rec hrec
  have h := scanFuel_mem env server fuel none [] rs hrun rec hrec
  rcases h with hin | ⟨r, he, hstale, hlow, hig⟩
  · simp at hin
  · refine ⟨?_, r, he, hcut ▸ hstale, hlow, hig⟩
    rw [he]
    exact hlow

/-- Witness for C1 at a concrete run collecting one record. -/
theorem fetchStaleRepos_result_invariants_witness :
    (buildRecord repoStale).commits < envEx.commitThreshold :=
  (fetchStaleRepos_result_invariants envEx serverInc 1 86401000 1
    [buildRecord repoStale] (by decide) rfl (buildRecord repoStale)
    (by simp)).1

/-- Counterexample to C2: with cutoff 1000 the candidate repoEq is pushed
exactly at the cutoff, so its push date is not before the cutoff and it is
not ignored; the claim then predicts immediate termination with no further
page request and no later inclusion.  The code instead continues: against
serverMixed it also scans repoStale (a record is emitted) and repoFresh,
and against serverStop (whose only candidate is repoEq, a stream trivially
sorted ascending) it issues a second page request, observable as the
transport error of the second response. -/
theorem earlyStop_at_cutoff_counterexample :
    envEx.ignoreList.contains repoEq.name = false ∧
    repoEq.pushedAt.t = envEx.cutoff ∧
    serverStop none = .ok pageEq ∧ pageEq.nodes = [repoEq] ∧
    fetchStaleRepos envEx serverStop 2 = some (.error ("boom")) ∧
    serverInc none = .ok { nodes := [repoEq, repoStale], endCursor := none,
                           hasNextPage := false } ∧
    fetchStaleRepos envEx serverInc 2 = some (.ok [buildRecord repoStale]) :=
  ⟨rfl, rfl, rfl, rfl, rfl, rfl, rfl⟩

/-- Claim C2 as amended: the termination test of the code is strict.  As
soon as the scanner meets a non-ignored candidate pushed strictly after the
cutoff (the prefix of the page before it being ignored or pushed at or
before the cutoff), the scan returns at once with only the records already
collected: that candidate is not included, nothing after it in the page is
looked at, and no further page request is issued for any remaining fuel or
server behaviour; a candidate pushed exactly at the cutoff does not
terminate the scan. -/
theorem earlyStop_strictlyAfter (env : ScanEnv)
    (server : Option String → Except String Page) (fuel : Nat)
    (cursor : Option String) (acc : List StaleRepo) (page : Page)
    (pre post : List Repo) (a : Repo)
    (hresp : server cursor = .ok page)
    (hnodes : page.nodes = pre ++ a :: post)
    (hpre : ∀ r ∈ pre, env.ignoreList.contains r.name = true ∨
      r.pushedAt.t ≤ env.cutoff)
    (hna : env.ignoreList.contains a.name = false)
    (hafter : env.cutoff < a.pushedAt.t) :
    scanFuel env server (fuel + 1) cursor acc =
      some (.ok (acc ++ (processRepos env pre).1)) := by
  have hp := processRepos_stop_of env pre a post hpre hna hafter
  rw [scanFuel, hresp]
  dsimp only
  rw [hnodes, hp]
  rfl

/-- Witness for the amended C2 at a concrete page. -/
theorem earlyStop_strictlyAfter_witness :
    scanFuel envEx serverMixed 1 none [] = some (.ok [buildRecord repoStale]) :=
  (earlyStop_strictlyAfter envEx serverMixed 0 none [] pageMixed
    [repoStale] [repoEq] repoFresh rfl rfl
    (by intro r hr; rcases List.mem_singleton.mp hr with rfl
        exact Or.inr (by decide))
    rfl (by decide)).trans rfl

/-- Claim C3: when the most recent commit metadata is absent (no default
branch, or an empty history), the Result Record has commit count 0, its
last-commit date falls back to the push date, and both author fields are
the literal unknown; moreover the two date fields of every Result Record
are rendered by the yyyy-MM-dd format call, whose output has the
yyyy-MM-dd shape on every valid calendar date. -/
theorem buildRecord_fallbacks_and_dateShape :
    (∀ r : Repo, (r.history = none ∨
        r.history = some { totalCount := 0, nodes := [] }) →
      (buildRecord r).commits = 0 ∧
      (buildRecord r).lastCommitDate = formatYMD r.pushedAt.ymd ∧
      (buildRecord r).lastCommitAuthor = "unknown" ∧
      (buildRecord r).lastCommitAuthorEmail = "unknown") ∧
    (∀ r : Repo, (buildRecord r).pushedAt = formatYMD r.pushedAt.ymd ∧
      (buildRecord r).lastCommitDate = formatYMD (lastCommitDT r).ymd) ∧
    (∀ r : Repo, validYMD r.pushedAt.ymd = true →
      isYMDShape ((buildRecord r).pushedAt) = true) ∧
    (∀ r : Repo, validYMD (lastCommitDT r).ymd = true →
      isYMDShape ((buildRecord r).lastCommitDate) = true) := by
  refine ⟨?_, fun r => ⟨rfl, rfl⟩, ?_, ?_⟩
  · intro r h
    rcases h with h | h <;>
      simp [buildRecord, totalCommitsOf, lastCommitDT, lastCommitInfo,
            authorOf, authorEmailOf, jsTruthy, h]
  · intro r h
    exact formatYMD_shape r.pushedAt.ymd h
  · intro r h
    exact formatYMD_shape (lastCommitDT r).ymd h

/-- Witness for C3 at the history-free candidate repoEq. -/
theorem buildRecord_fallbacks_and_dateShape_witness :
    ((buildRecord repoEq).commits = 0 ∧
     (buildRecord repoEq).lastCommitDate = formatYMD repoEq.pushedAt.ymd ∧
     (buildRecord repoEq).lastCommitAuthor = "unknown" ∧
     (buildRecord repoEq).lastCommitAuthorEmail = "unknown") ∧
    isYMDShape ((buildRecord repoEq).pushedAt) = true ∧
    isYMDShape ((buildRecord repoEq).lastCommitDate) = true :=
  ⟨buildRecord_fallbacks_and_dateShape.1 repoEq (Or.inl rfl),
   buildRecord_fallbacks_and_dateShape.2.2.1 repoEq (by decide),
   buildRecord_fallbacks_and_dateShape.2.2.2 repoEq (by decide)⟩

/-- Claim C4: an ignored candidate is skipped outright: scanning one is the
same as scanning the rest of the page, so it produces no record, never has
its push instant compared against the cutoff, and never fires the early
stop, whatever its push date. -/
theorem ignored_candidate_skipped (env : ScanEnv) (r : Repo)
    (rest : List Repo) (h : env.ignoreList.contains r.name = true) :
    processRepos env (r :: rest) = processRepos env rest :=
  processRepos_cons_ignored env r rest (by simpa using h)

/-- Witness for C4: the fresh ignored candidate repoGhost changes nothing. -/
theorem ignored_candidate_skipped_witness :
    processRepos envIgn (repoGhost :: [repoStale]) =
      processRepos envIgn [repoStale] :=
  ignored_candidate_skipped envIgn repoGhost [repoStale] rfl

/-- Claim C5: a non-success transport response makes the reached iteration
return the fatal outcome carrying the response body, for any remaining fuel
and accumulated records: the run exits with code 1 and emits no results at
all. -/
theorem transportError_aborts (env : ScanEnv)
    (server : Option String → Except String Page) (fuel : Nat)
    (cursor : Option String) (acc : List StaleRepo) (body : String)
    (h : server cursor = .error body) :
    scanFuel env server (fuel + 1) cursor acc = some (.error body) ∧
    exitCodeOf (.error body) = 1 ∧
    emittedResults (Except.error body) = (none : Option (List StaleRepo)) := by
  refine ⟨?_, rfl, rfl⟩
  rw [scanFuel, h]

/-- Witness for C5 at the always-failing source. -/
theorem transportError_aborts_witness :
    scanFuel envEx serverErr 1 none [] = some (.error ("bad credentials")) ∧
    exitCodeOf (.error ("bad credentials")) = 1 ∧
    emittedResults (Except.error ("bad credentials")) =
      (none : Option (List StaleRepo)) :=
  transportError_aborts envEx serverErr 0 none [] ("bad credentials") rfl

/-- Claim C6: when every response is a page and every page that advertises
a next page advances the cursor strictly along some rank, the loop reaches
a normal return (early stop or final page) within rank-many iterations. -/
theorem scan_terminates (env : ScanEnv)
    (server : Option String → Except String Page)
    (rank : Option String → Nat)
    (hok : ∀ c, ∃ p, server c = .ok p)
    (hadv : ∀ c p, server c = .ok p → p.hasNextPage = true →
      rank p.endCursor < rank c) :
    ∀ (fuel : Nat) (cursor : Option String) (acc : List StaleRepo),
      rank cursor < fuel →
      ∃ rs, scanFuel env server fuel cursor acc = some (.ok rs) := by
  intro fuel
  induction fuel with
  | zero => intro cursor acc h; omega
  | succ n ih =>
    intro cursor acc h
    obtain ⟨p, hp⟩ := hok cursor
    by_cases hstop : (processRepos env p.nodes).2 = true
    · exact ⟨acc ++ (processRepos env p.nodes).1, by
        rw [scanFuel, hp]; dsimp only; rw [if_pos hstop]⟩
    · by_cases hnext : p.hasNextPage = true
      · have hr : rank p.endCursor < n :=
          lt_of_lt_of_le (hadv cursor p hp hnext) (Nat.lt_succ_iff.mp h)
        obtain ⟨rs, hrs⟩ := ih p.endCursor (acc ++ (processRepos env p.nodes).1) hr
        exact ⟨rs, by
          rw [scanFuel, hp]; dsimp only
          rw [if_neg hstop, if_pos hnext]; exact hrs⟩
      · exact ⟨acc ++ (processRepos env p.nodes).1, by
          rw [scanFuel, hp]; dsimp only; rw [if_neg hstop, if_neg hnext]⟩

/-- Witness for C6 at a one-page source. -/
theorem scan_terminates_witness :
    (scanFuel envEx serverEmpty 1 none []).isSome = true := by
  obtain ⟨rs, h⟩ := scan_terminates envEx serverEmpty (fun _ => 0)
    (fun c => ⟨{ nodes := [], endCursor := none, hasNextPage := false }, rfl⟩)
    (by intro c p hp hn
        simp only [serverEmpty, Except.ok.injEq] at hp
        rw [← hp] at hn
        simp at hn)
    1 none [] (by decide)
  rw [h]
  rfl

/-- Counterexample to C7: the size member is not conditional.  The stale
candidate repoND reports no disk usage, yet the JSON object of its Result
Record carries a size member (rendered null kB). -/
theorem json_size_field_counterexample :
    repoND.diskUsage = none ∧
    fetchStaleRepos envEx serverND 1 = some (.ok [buildRecord repoND]) ∧
    recordToJson (buildRecord repoND) =
      JVal.obj [("name", JVal.str ("gamma")),
                ("pushedAt", JVal.str ("2023-06-01")),
                ("commits", JVal.num 0),
                ("size", JVal.str ("null kB")),
                ("lastCommitDate", JVal.str ("2023-06-01")),
                ("lastCommitAuthor", JVal.str ("unknown")),
                ("lastCommitAuthorEmail", JVal.str ("unknown"))] :=
  ⟨rfl, rfl, rfl⟩

/-- Claim C7 as amended: the JSON output is the array of the Result Record
objects, each carrying exactly the members name, pushedAt, commits, size,
lastCommitDate, lastCommitAuthor and lastCommitAuthorEmail; size is always
present and renders as null kB when the source reported no disk usage. -/
theorem json_fields_exact :
    (∀ rec : StaleRepo, fieldNamesOf (recordToJson rec) =
      ["name", "pushedAt", "commits", "size", "lastCommitDate",
       "lastCommitAuthor", "lastCommitAuthorEmail"]) ∧
    (∀ rs : List StaleRepo, jsonOutput rs = JVal.arr (rs.map recordToJson)) ∧
    (∀ (r : Repo) (n : Int), r.diskUsage = some n →
      (buildRecord r).size = toString n ++ " kB") ∧
    (∀ r : Repo, r.diskUsage = none → (buildRecord r).size = "null kB") := by
  refine ⟨fun rec => rfl, fun rs => rfl, fun r n h => ?_, fun r h => ?_⟩
  · simp [buildRecord, sizeStr, h]
  · simp [buildRecord, sizeStr, h]

/-- Witness for the amended C7: the reported disk usage of repoStale
renders as 12 kB; the disk-usage-free repoND renders as null kB. -/
theorem json_fields_exact_witness :
    (buildRecord repoStale).size = toString (12 : Int) ++ " kB" ∧
    (buildRecord repoND).size = "null kB" :=
  ⟨json_fields_exact.2.2.1 repoStale 12 rfl,
   json_fields_exact.2.2.2 repoND rfl⟩

/-- Claim C8: rendering any sequence of Result Records as the JSON output
and parsing it back recovers the records field for field. -/
theorem json_roundTrip (rs : List StaleRepo) :
    parseResults (jsonOutput rs) = some rs := by
  induction rs with
  | nil => rfl
  | cons r rest ih =>
    have ih2 : parseResultList (rest.map recordToJson) = some rest := ih
    simp [jsonOutput, parseResults, parseResultList,
          parseRecord_recordToJson, ih2]

/-- Claim C9: a non-ignored candidate pushed exactly at the cutoff instant
is passed over silently: it is not included (the strict staleness test
fails) and does not fire the early stop (the strict after test fails), so
scanning the page is the same as scanning the rest of it. -/
theorem cutoff_equality_skipped (env : ScanEnv) (r : Repo)
    (rest : List Repo) (_hig : env.ignoreList.contains r.name = false)
    (heq : r.pushedAt.t = env.cutoff) :
    processRepos env (r :: rest) = processRepos env rest := by
  simp [processRepos, heq]

/-- Witness for C9 at the at-cutoff candidate repoEq. -/
theorem cutoff_equality_skipped_witness :
    processRepos envEx (repoEq :: [repoStale]) = processRepos envEx [repoStale] :=
  cutoff_equality_skipped envEx repoEq [repoStale] rfl rfl

/-- Claim C10: in the first program variant and in src/unnamed/part_000,
every run that passes the token presence check logs the raw token as its
very first output event, before the banner and before the first page
request, so two runs differing only in the token produce different
outputs: the output is not noninterferent with respect to the token. -/
theorem token_logged_before_request (t t2 org : String)
    (staleDays commitThreshold : Nat) (ht : t ≠ "") (ht2 : t2 ≠ "") :
    (mainEventsToFirstRequest (some t) org staleDays commitThreshold).head? =
      some (Ev.stdout t) ∧
    (mainEventsToFirstRequest (some t) org staleDays commitThreshold)[2]? =
      some (Ev.request none) ∧
    (∀ k c, (mainEventsToFirstRequest (some t) org staleDays
        commitThreshold)[k]? = some (Ev.request c) → 2 ≤ k) ∧
    (t ≠ t2 → mainEventsToFirstRequest (some t) org staleDays commitThreshold ≠
      mainEventsToFirstRequest (some t2) org staleDays commitThreshold) := by
  refine ⟨?_, ?_, ?_, ?_⟩
  · simp [mainEventsToFirstRequest, ht]
  · simp [mainEventsToFirstRequest, ht]
  · intro k c h
    match k with
    | 0 => simp [mainEventsToFirstRequest, ht] at h
    | 1 => simp [mainEventsToFirstRequest, ht] at h
    | n + 2 => omega
  · intro hne heq
    simp only [mainEventsToFirstRequest, ht, ht2, if_neg] at heq
    exact hne (by injection (List.cons.inj heq).1)

/-- Witness for C10 at a concrete token pair. -/
theorem token_logged_before_request_witness :
    (mainEventsToFirstRequest (some ("ghp_secret")) "acme" 180 20).head? =
      some (Ev.stdout ("ghp_secret")) ∧
    (mainEventsToFirstRequest (some ("ghp_secret")) "acme" 180 20)[2]? =
      some (Ev.request none) ∧
    mainEventsToFirstRequest (some ("ghp_secret")) "acme" 180 20 ≠
      mainEventsToFirstRequest (some ("other")) "acme" 180 20 :=
  have h := token_logged_before_request "ghp_secret" "other" "acme" 180 20
    (by decide) (by decide)
  ⟨h.1, h.2.1, h.2.2.2 (by decide)⟩

end GhStaleRepos
